import Mathlib

/-!
Verification development for the symcpp symbolic-expression engine
(src/include/expression.hpp).  The C++ header defines a template
class Expression over a numeric domain (long double, or a complex pair),
node classes Value, Variable, Add, Subtract, Multiply, Divide, Power,
Sin, Cos, Ln, Exp, the eagerly simplifying operator overloads, eval,
diff, to_string, and a two-stack shunting-yard parser.

The shallow embedding below mirrors that source:
the C++ domain template parameter becomes a NumDomain structure whose
function fields are the arithmetic, comparison, rendering and
transcendental operations a domain supplies; the node hierarchy becomes
the inductive Expr; each operator overload becomes a smart constructor
performing the same constant folding and identity elimination; the
throwing operations (division, variable lookup, Ln evaluation) return
Except values.  C++ exceptions are the SymError values.
-/

deriving instance DecidableEq for Except

namespace Symcpp

/-- Errors raised by the C++ code via throw std::runtime_error, plus two
model-only artifacts: stackUnderflow stands for the undefined behaviour of
popping an empty std::stack, and noFuel for exhausting the structural fuel
of the parser model (never reached when the parser is started with the
fuel supplied by parse_expression on inputs the claims exercise). -/
inductive SymError
  | divisionByZero
  | unboundVariable
  | domainError
  | parseError
  | stackUnderflow
  | noFuel
deriving DecidableEq

/-- The scalar standing for a long double (Reals_t) value: an exact
fraction of integers, not kept in lowest terms (so that every arithmetic
operation is a plain integer computation).  All values the model builds
have a non-zero denominator.  Floating rounding is not modelled: the
claims below never depend on a value that a long double could not carry
exactly through the operations involved.  Numeric equality of two
fractions — the model of operator== on long double — is cross
multiplication, the fEq function below, and is coarser than structural
equality of the pairs. -/
structure Frac where
  num : Int
  den : Int
deriving DecidableEq

instance (n : Nat) : OfNat Frac n := ⟨⟨(n : Int), 1⟩⟩

instance : Neg Frac := ⟨fun q => ⟨-q.num, q.den⟩⟩

/-- Numeric equality of fractions: the model of operator== on the
underlying real values. -/
def fEq (a b : Frac) : Bool := a.num * b.den = b.num * a.den

/-- Fraction addition. -/
def fAdd (a b : Frac) : Frac := ⟨a.num * b.den + b.num * a.den, a.den * b.den⟩

/-- Fraction subtraction. -/
def fSub (a b : Frac) : Frac := ⟨a.num * b.den - b.num * a.den, a.den * b.den⟩

/-- Fraction multiplication. -/
def fMul (a b : Frac) : Frac := ⟨a.num * b.num, a.den * b.den⟩

/-- Fraction division. -/
def fDiv (a b : Frac) : Frac := ⟨a.num * b.den, a.den * b.num⟩

/-- Positivity of a fraction (with a non-zero denominator, the value is
positive exactly when numerator and denominator agree in sign). -/
def fPos (a : Frac) : Bool := 0 < a.num * a.den

/-- The node hierarchy of expression.hpp: Value (a literal of the domain),
Variable (a name), the five binary nodes and the four unary nodes.
Children are the nodes themselves; the empty Expression handle of the C++
class is modelled separately as the none case of an Option (Expr alpha). -/
inductive Expr (α : Type)
  | value (v : α)
  | var (name : String)
  | add (lhs rhs : Expr α)
  | sub (lhs rhs : Expr α)
  | mul (lhs rhs : Expr α)
  | divide (lhs rhs : Expr α)
  | power (lhs rhs : Expr α)
  | sinN (e : Expr α)
  | cosN (e : Expr α)
  | lnN (e : Expr α)
  | expN (e : Expr α)
deriving DecidableEq

/-- Mirrors std::dynamic_pointer_cast to Value: the literal payload if the
node is a Value, none otherwise. -/
def Expr.val? {α : Type} : Expr α → Option α
  | .value v => some v
  | _ => none

/-- The numeric domain of the C++ template parameter (long double, or the
Complexes_t pair).  Function fields model the operations the domain
supplies; sinFn, cosFn, logFn, expFn, powFn stand for the std functions,
which are total (they return a value such as NaN rather than throwing).
beq models operator==; ofReal models static_cast from a parsed or integer
constant (a real scalar) into the domain; imagUnit models the expression
Domain(Complexes_t(0, 1)) in Variable::eval, which is the imaginary unit
in the complex domain and, through the explicit conversion to long double,
the real part 0 in the real domain; lnOk models the Ln::eval domain check
(value positive in the real domain, real part positive in the complex
domain); valToString models Value::to_string.  The three beq equations are
facts of both C++ domains (0 == 0, 1 == 1, 0 != 1). -/
structure NumDomain (α : Type) where
  zero : α
  one : α
  ofReal : Frac → α
  add : α → α → α
  sub : α → α → α
  mul : α → α → α
  div : α → α → α
  powFn : α → α → α
  sinFn : α → α
  cosFn : α → α
  logFn : α → α
  expFn : α → α
  beq : α → α → Bool
  valToString : α → String
  lnOk : α → Bool
  imagUnit : α
  beq_zero_zero : beq zero zero = true
  beq_one_one : beq one one = true
  beq_zero_one : beq zero one = false

variable {α : Type}

/-- Expression::operator+ of expression.hpp: fold two literals; drop a
literal-zero operand on either side; otherwise allocate an Add node. -/
def addE (D : NumDomain α) (l r : Expr α) : Expr α :=
  match l.val?, r.val? with
  | some a, some b => .value (D.add a b)
  | some a, none => if D.beq a D.zero then r else .add l r
  | none, some b => if D.beq b D.zero then l else .add l r
  | none, none => .add l r

/-- Expression::operator- of expression.hpp: fold two literals; drop a
literal-zero right operand; otherwise allocate a Subtract node. -/
def subE (D : NumDomain α) (l r : Expr α) : Expr α :=
  match l.val?, r.val? with
  | some a, some b => .value (D.sub a b)
  | none, some b => if D.beq b D.zero then l else .sub l r
  | _, _ => .sub l r

/-- Expression::operator* of expression.hpp: fold two literals; a
literal-one operand returns the other side; a literal-zero operand
returns a fresh literal zero; otherwise allocate a Multiply node. -/
def mulE (D : NumDomain α) (l r : Expr α) : Expr α :=
  match l.val?, r.val? with
  | some a, some b => .value (D.mul a b)
  | some a, none =>
      if D.beq a D.one then r
      else if D.beq a D.zero then .value D.zero else .mul l r
  | none, some b =>
      if D.beq b D.one then l
      else if D.beq b D.zero then .value D.zero else .mul l r
  | none, none => .mul l r

/-- Expression::operator/ of expression.hpp: a literal-zero divisor throws
Division by zero before anything else; two literals fold; a literal-one
divisor returns the dividend; a literal-zero dividend returns a fresh
literal zero; otherwise allocate a Divide node. -/
def divE (D : NumDomain α) (l r : Expr α) : Except SymError (Expr α) :=
  match l.val?, r.val? with
  | some a, some b =>
      if D.beq b D.zero then .error .divisionByZero
      else .ok (.value (D.div a b))
  | none, some b =>
      if D.beq b D.zero then .error .divisionByZero
      else if D.beq b D.one then .ok l
      else .ok (.divide l r)
  | some a, none =>
      if D.beq a D.zero then .ok (.value D.zero) else .ok (.divide l r)
  | none, none => .ok (.divide l r)

/-- Expression::pow of expression.hpp: two literals fold through the
domain's pow; a literal-zero base returns a fresh literal one; a
literal-one exponent returns the base; otherwise allocate a Power node.
Note the source has no case for a literal-zero exponent. -/
def powE (D : NumDomain α) (l r : Expr α) : Expr α :=
  match l.val?, r.val? with
  | some a, some b => .value (D.powFn a b)
  | some a, none => if D.beq a D.zero then .value D.one else .power l r
  | none, some b => if D.beq b D.one then l else .power l r
  | none, none => .power l r

/-- Expression::sin of expression.hpp: fold a literal through the domain's
sin, otherwise allocate a Sin node. -/
def sinE (D : NumDomain α) (e : Expr α) : Expr α :=
  match e.val? with
  | some a => .value (D.sinFn a)
  | none => .sinN e

/-- Expression::cos of expression.hpp: fold a literal, else a Cos node. -/
def cosE (D : NumDomain α) (e : Expr α) : Expr α :=
  match e.val? with
  | some a => .value (D.cosFn a)
  | none => .cosN e

/-- Expression::ln of expression.hpp: fold a literal through the domain's
log (std::log is total: it yields NaN or -inf on a non-positive real
argument and never throws), else allocate an Ln node.  There is no domain
check here; the check sits in Ln::eval only. -/
def lnE (D : NumDomain α) (e : Expr α) : Expr α :=
  match e.val? with
  | some a => .value (D.logFn a)
  | none => .lnN e

/-- Expression::exp of expression.hpp: fold a literal, else an Exp node. -/
def expE (D : NumDomain α) (e : Expr α) : Expr α :=
  match e.val? with
  | some a => .value (D.expFn a)
  | none => .expN e

/-- std::map lookup used by Variable::eval: first binding of the name. -/
def lookupBind (binds : List (String × α)) (s : String) : Option α :=
  match binds with
  | [] => none
  | (k, v) :: rest => if k = s then some v else lookupBind rest s

/-- The eval virtual methods of expression.hpp, node by node: a Value
returns its payload; a Variable returns its binding, or the conversion
of Complexes_t(0, 1) into the domain when the name is i, or throws
Variable not found; Divide evaluates the divisor first and throws
Division by zero when it compares equal to zero; Ln checks the evaluated
argument through the domain check and throws the Ln domain error on
failure (the source calls expr.eval twice, which is pure, so the model
reuses the first result); the remaining nodes combine their evaluated
children with the domain operation. -/
def evalE (D : NumDomain α) (binds : List (String × α)) : Expr α → Except SymError α
  | .value v => .ok v
  | .var s =>
      match lookupBind binds s with
      | some v => .ok v
      | none => if s = "i" then .ok D.imagUnit else .error .unboundVariable
  | .add l r => do
      let a ← evalE D binds l
      let b ← evalE D binds r
      .ok (D.add a b)
  | .sub l r => do
      let a ← evalE D binds l
      let b ← evalE D binds r
      .ok (D.sub a b)
  | .mul l r => do
      let a ← evalE D binds l
      let b ← evalE D binds r
      .ok (D.mul a b)
  | .divide l r => do
      let divider ← evalE D binds r
      if D.beq divider D.zero then .error .divisionByZero
      else do
        let a ← evalE D binds l
        .ok (D.div a divider)
  | .power l r => do
      let a ← evalE D binds l
      let b ← evalE D binds r
      .ok (D.powFn a b)
  | .sinN e => do
      let a ← evalE D binds e
      .ok (D.sinFn a)
  | .cosN e => do
      let a ← evalE D binds e
      .ok (D.cosFn a)
  | .lnN e => do
      let a ← evalE D binds e
      if D.lnOk a then .ok (D.logFn a) else .error .domainError
  | .expN e => do
      let a ← evalE D binds e
      .ok (D.expFn a)

/-- The diff virtual methods of expression.hpp, node by node, built through
the simplifying smart constructors exactly as the source builds them
through the operator overloads.  Division performed while building a
derivative can throw, hence the Except result (Expression::diff itself
never throws, but propagates such construction errors). -/
def diffE (D : NumDomain α) (x : String) : Expr α → Except SymError (Expr α)
  | .value _ => .ok (.value D.zero)
  | .var v => .ok (if v = x then Expr.value D.one else Expr.value D.zero)
  | .add l r => do
      let dl ← diffE D x l
      let dr ← diffE D x r
      .ok (addE D dl dr)
  | .sub l r => do
      let dl ← diffE D x l
      let dr ← diffE D x r
      .ok (subE D dl dr)
  | .mul l r => do
      let dl ← diffE D x l
      let dr ← diffE D x r
      .ok (addE D (mulE D dl r) (mulE D l dr))
  | .divide l r => do
      let dl ← diffE D x l
      let dr ← diffE D x r
      divE D (subE D (mulE D dl r) (mulE D l dr)) (mulE D r r)
  | .power l r => do
      let dr ← diffE D x r
      let dl ← diffE D x l
      let q ← divE D (mulE D r dl) l
      .ok (mulE D (powE D l r) (addE D (mulE D dr (lnE D l)) q))
  | .sinN e => do
      let de ← diffE D x e
      .ok (mulE D (cosE D e) de)
  | .cosN e => do
      let de ← diffE D x e
      .ok (mulE D (mulE D (.value (D.ofReal (-1))) (sinE D e)) de)
  | .lnN e => do
      let q ← divE D (.value D.one) e
      let de ← diffE D x e
      .ok (mulE D q de)
  | .expN e => do
      let de ← diffE D x e
      .ok (mulE D e de)

/-- The to_string virtual methods of expression.hpp: binary nodes render
as (lhs OP rhs), unary nodes as name(arg), a Value through the domain
rendering, a Variable as its name. -/
def toStringE (D : NumDomain α) : Expr α → String
  | .value v => D.valToString v
  | .var s => s
  | .add l r => "(" ++ toStringE D l ++ " + " ++ toStringE D r ++ ")"
  | .sub l r => "(" ++ toStringE D l ++ " - " ++ toStringE D r ++ ")"
  | .mul l r => "(" ++ toStringE D l ++ " * " ++ toStringE D r ++ ")"
  | .divide l r => "(" ++ toStringE D l ++ " / " ++ toStringE D r ++ ")"
  | .power l r => "(" ++ toStringE D l ++ " ^ " ++ toStringE D r ++ ")"
  | .sinN e => "sin(" ++ toStringE D e ++ ")"
  | .cosN e => "cos(" ++ toStringE D e ++ ")"
  | .lnN e => "ln(" ++ toStringE D e ++ ")"
  | .expN e => "exp(" ++ toStringE D e ++ ")"

/-- Expression::to_string on the handle: the sentinel null for an empty
handle, else the node rendering. -/
def toStringH (D : NumDomain α) : Option (Expr α) → String
  | none => "null"
  | some e => toStringE D e

/-- Expression::eval on the handle: a value-initialized domain value (the
domain's zero) for an empty handle, else the node evaluation. -/
def evalH (D : NumDomain α) (binds : List (String × α)) : Option (Expr α) → Except SymError α
  | none => .ok D.zero
  | some e => evalE D binds e

/-- Expression::diff on the handle: for an empty handle the source returns
a value-initialized domain value, which the implicit Expression
constructor wraps into a Value literal (a non-empty handle); else the
node differentiation. -/
def diffH (D : NumDomain α) (x : String) : Option (Expr α) → Except SymError (Option (Expr α))
  | none => .ok (some (.value D.zero))
  | some e => (diffE D x e).map some

/-! ## The parser (parse_expression of expression.hpp)

The C++ function runs a for loop over the input with two std::stack
objects (values and operator characters), an expect_operand flag, a
precedence table, and a reserved function-name table; on a reserved name
it scans the parenthesized argument substring and recursively re-invokes
itself on it.  The model below is the same loop written as structural
recursion on a fuel counter (the C++ loop consumes at least one character
per iteration, so parse_expression seeds the model with length + 1 fuel,
which can never run out); popping an empty stack, which is undefined
behaviour in C++, is the stackUnderflow error here. -/

/-- The precedence table of parse_expression, including the value-
initialized 0 an unordered_map operator[] yields for an absent key. -/
def precOf (c : Char) : Nat :=
  if c = '+' then 1
  else if c = '-' then 1
  else if c = '*' then 2
  else if c = '/' then 2
  else if c = '^' then 3
  else 0

/-- One apply step shared by the three reduction sites of
parse_expression: pop two operands, apply the operator character through
the simplifying smart constructors, push the result.  An operator
character outside the five known ones pushes nothing, exactly as the
if-else chain of the source falls through (this happens only for a
leftover open parenthesis during the final drain). -/
def reduceOnce (D : NumDomain α) (vals : List (Expr α)) (op : Char) :
    Except SymError (List (Expr α)) :=
  match vals with
  | r :: l :: rest =>
      if op = '+' then .ok (addE D l r :: rest)
      else if op = '-' then .ok (subE D l r :: rest)
      else if op = '*' then .ok (mulE D l r :: rest)
      else if op = '/' then (divE D l r).map (fun v => v :: rest)
      else if op = '^' then .ok (powE D l r :: rest)
      else .ok rest
  | _ => .error .stackUnderflow

/-- The while loop of the closing-parenthesis branch: reduce until the
operator stack is empty or an open parenthesis is on top. -/
def reduceUntilParen (D : NumDomain α) (vals : List (Expr α)) :
    List Char → Except SymError (List (Expr α) × List Char)
  | [] => .ok (vals, [])
  | op :: ops =>
      if op = '(' then .ok (vals, op :: ops)
      else do
        let vals2 ← reduceOnce D vals op
        reduceUntilParen D vals2 ops

/-- The while loop of the binary-operator branch: reduce while the top of
the operator stack is not an open parenthesis and has precedence greater
than or equal to the incoming operator (the left-associative fold). -/
def reduceWhileGE (D : NumDomain α) (cur : Char) (vals : List (Expr α)) :
    List Char → Except SymError (List (Expr α) × List Char)
  | [] => .ok (vals, [])
  | op :: ops =>
      if op ≠ '(' ∧ precOf cur ≤ precOf op then do
        let vals2 ← reduceOnce D vals op
        reduceWhileGE D cur vals2 ops
      else .ok (vals, op :: ops)

/-- The drain loop after the end of the input: apply every operator left
on the stack, then return the top of the value stack (undefined behaviour
in C++ when that stack is empty; stackUnderflow here). -/
def drainOps (D : NumDomain α) (vals : List (Expr α)) :
    List Char → Except SymError (Expr α)
  | [] =>
      match vals with
      | v :: _ => .ok v
      | [] => .error .stackUnderflow
  | op :: ops => do
      let vals2 ← reduceOnce D vals op
      drainOps D vals2 ops

/-- The argument-substring scan of the function-call branch: starting
just after the opening parenthesis with nesting count 1, collect
characters (inner parentheses included) until the nesting count returns
to zero or the input ends; yields the argument characters and the
characters after the closing parenthesis. -/
def scanArg : Nat → List Char → List Char × List Char
  | _, [] => ([], [])
  | cnt, c :: rest =>
      let cnt2 := if c = '(' then cnt + 1 else if c = ')' then cnt - 1 else cnt
      if cnt2 = 0 then ([], rest)
      else
        let pr := scanArg cnt2 rest
        (c :: pr.1, pr.2)

/-- The character class of the numeric-literal token scan: a digit or a
dot. -/
def numChar (c : Char) : Bool := c.isDigit || c = '.'

/-- A digit character's numeric value, as used by std::stold. -/
def digitVal (c : Char) : Nat := c.toNat - '0'.toNat

/-- Left-to-right accumulation of a digit run into a natural number. -/
def parseNatChars (cs : List Char) : Nat :=
  cs.foldl (fun a c => 10 * a + digitVal c) 0

/-- Model of std::stold applied to the scanned numeric token (a run of
digits and dots): the digits before the first dot are the integer part
and the digits after it up to the next non-digit are the fraction, which
is how stold reads the longest valid prefix of such a token (stold on a
token with no digits would throw; the claims never exercise that). -/
def stoldModel (cs : List Char) : Frac :=
  let intPart := cs.takeWhile (fun c => c ≠ '.')
  let rest := cs.dropWhile (fun c => c ≠ '.')
  let fracPart := (rest.drop 1).takeWhile Char.isDigit
  ⟨(parseNatChars intPart : Int) * 10 ^ fracPart.length + (parseNatChars fracPart : Int),
    (10 : Int) ^ fracPart.length⟩

/-- The reserved function-name table of parse_expression. -/
def isReservedFn (s : String) : Bool :=
  s = "sin" || s = "cos" || s = "ln" || s = "exp"

/-- Dispatch through the function table of parse_expression. -/
def applyFn (D : NumDomain α) (s : String) (a : Expr α) : Expr α :=
  if s = "sin" then sinE D a
  else if s = "cos" then cosE D a
  else if s = "ln" then lnE D a
  else expE D a

/-- The main loop of parse_expression, one iteration per constructor
application: skip whitespace; a minus in operand position pushes the
literal -1 and a synthesized times; a digit or dot starts a numeric
token (note: no synthesized times here); an alphabetic character starts
an identifier token, either a reserved function name (which must be
followed by an open parenthesis, whose argument substring is parsed by a
recursive call, and which synthesizes a times when an operand was already
produced) or a variable (same synthesized times rule); an open
parenthesis synthesizes a times in operand position and is pushed; a
closing parenthesis reduces to the matching open one; one of the five
operator characters reduces by precedence and is pushed; any other
character is skipped.  At the end of input the remaining operators are
drained. -/
def parseLoop (D : NumDomain α) :
    Nat → List Char → List (Expr α) → List Char → Bool → Except SymError (Expr α)
  | _, [], vals, ops, _ => drainOps D vals ops
  | 0, _ :: _, _, _, _ => .error .noFuel
  | fuel + 1, c :: rest, vals, ops, expectOperand =>
      if c.isWhitespace then parseLoop D fuel rest vals ops expectOperand
      else if c = '-' && expectOperand then
        parseLoop D fuel rest (.value (D.ofReal (-1)) :: vals) ('*' :: ops) expectOperand
      else if numChar c then
        parseLoop D fuel ((c :: rest).dropWhile numChar)
          (.value (D.ofReal (stoldModel ((c :: rest).takeWhile numChar))) :: vals) ops false
      else if c.isAlpha then
        let tok := String.mk ((c :: rest).takeWhile Char.isAlpha)
        let rest0 := (c :: rest).dropWhile Char.isAlpha
        if isReservedFn tok then
          match rest0 with
          | '(' :: r1 =>
              let pr := scanArg 1 r1
              match parseLoop D fuel pr.1 [] [] true with
              | .error e => .error e
              | .ok argE =>
                  parseLoop D fuel pr.2 (applyFn D tok argE :: vals)
                    (if expectOperand then ops else '*' :: ops) false
          | _ => .error .parseError
        else
          parseLoop D fuel rest0 (.var tok :: vals)
            (if expectOperand then ops else '*' :: ops) false
      else if c = '(' then
        parseLoop D fuel rest vals ('(' :: (if expectOperand then ops else '*' :: ops)) true
      else if c = ')' then
        match reduceUntilParen D vals ops with
        | .error e => .error e
        | .ok (vals2, ops2) =>
            match ops2 with
            | '(' :: ops3 => parseLoop D fuel rest vals2 ops3 false
            | _ => .error .stackUnderflow
      else if c = '+' || c = '-' || c = '*' || c = '/' || c = '^' then
        match reduceWhileGE D c vals ops with
        | .error e => .error e
        | .ok (vals2, ops2) => parseLoop D fuel rest vals2 (c :: ops2) true
      else parseLoop D fuel rest vals ops expectOperand

/-- parse_expression of expression.hpp: run the loop on the characters of
the input with empty stacks, expecting an operand.  The fuel length + 1
never runs out, because every iteration consumes at least one character
and the recursive call for a function argument works on a strictly
shorter substring. -/
def parse_expression (D : NumDomain α) (s : String) : Except SymError (Expr α) :=
  parseLoop D (s.data.length + 1) s.data [] [] true

/-! ## Literal rendering (Value::to_string) and the concrete domains

Value::to_string calls std::to_string on the domain value, which for a
floating value prints a fixed six-decimal form (the %Lf conversion); the
complex overload symcpp::to_string prints "(re, im)" with each part in
that form.  The model renders a rational with sign, integer digits, a
dot, and six fraction digits obtained by rounding the value scaled by
10^6 to the nearest integer (the tie-breaking of the C library rounding
is irrelevant to every claim below, which only exercises tie-free
values). -/

/-- Decimal digits of a natural number, least significant first; the
first argument is structural fuel, always called with fuel at least n. -/
def natDigitsRev : Nat → Nat → List Nat
  | 0, _ => []
  | _ + 1, 0 => []
  | fuel + 1, n + 1 => ((n + 1) % 10) :: natDigitsRev fuel ((n + 1) / 10)

/-- Decimal rendering of a natural number, as %u prints it. -/
def natChars (n : Nat) : List Char :=
  if n = 0 then ['0'] else ((natDigitsRev n n).reverse.map Nat.digitChar)

/-- The six fraction digits, zero-padded on the left. -/
def pad6 (n : Nat) : List Char :=
  List.replicate (6 - (natChars n).length) '0' ++ natChars n

/-- The %.6Lf rendering of a fraction: sign, integer digits, dot, six
fraction digits of the magnitude scaled by 10^6 and rounded to the
nearest integer (half away from zero; the C library tie-breaking differs
only at exact ties, which no claim below exercises). -/
def render6 (q : Frac) : List Char :=
  let nn : Nat := q.num.natAbs * 1000000
  let dd : Nat := q.den.natAbs
  let m : Nat := (2 * nn + dd) / (2 * dd)
  (if q.num * q.den < 0 then ['-'] else []) ++
    natChars (m / 1000000) ++ '.' :: pad6 (m % 1000000)

/-- Stand-ins for the std transcendental functions on the real domain.
Their floating-point outputs are not modelled: every claim below depends
only on the fact that they are total functions of the domain (std::sin,
std::log and the rest return a value, possibly NaN or an infinity, and
never throw) and on which nodes fold through them, never on the folded
numeric value. -/
def stdSinQ : Frac → Frac := fun _ => 0

/-- Stand-in for std::cos on the real domain; see stdSinQ. -/
def stdCosQ : Frac → Frac := fun _ => 0

/-- Stand-in for std::log on the real domain; see stdSinQ.  In
particular it is total on non-positive arguments, where std::log returns
NaN or -inf without throwing. -/
def stdLogQ : Frac → Frac := fun _ => 0

/-- Stand-in for std::exp on the real domain; see stdSinQ. -/
def stdExpQ : Frac → Frac := fun _ => 0

/-- Stand-in for std::pow on the real domain; see stdSinQ. -/
def stdPowQ : Frac → Frac → Frac := fun _ _ => 0

/-- The real domain (Reals_t = long double): exact fractions standing for
the floating values, equality as operator==, six-decimal rendering as
std::to_string, the Ln::eval check value > 0, and the value 0 for an
unbound variable i (the explicit Complexes_t conversion keeps only the
real part of (0, 1)). -/
def realDomain : NumDomain Frac where
  zero := 0
  one := 1
  ofReal := fun q => q
  add := fAdd
  sub := fSub
  mul := fMul
  div := fDiv
  powFn := stdPowQ
  sinFn := stdSinQ
  cosFn := stdCosQ
  logFn := stdLogQ
  expFn := stdExpQ
  beq := fEq
  valToString := fun q => String.mk (render6 q)
  lnOk := fPos
  imagUnit := 0
  beq_zero_zero := by decide
  beq_one_one := by decide
  beq_zero_one := by decide

/-- Complex pairs (real part, imaginary part) with the std::complex
arithmetic. -/
def cAdd (a b : Frac × Frac) : Frac × Frac := (fAdd a.1 b.1, fAdd a.2 b.2)

/-- Complex subtraction. -/
def cSub (a b : Frac × Frac) : Frac × Frac := (fSub a.1 b.1, fSub a.2 b.2)

/-- Complex multiplication. -/
def cMul (a b : Frac × Frac) : Frac × Frac :=
  (fSub (fMul a.1 b.1) (fMul a.2 b.2), fAdd (fMul a.1 b.2) (fMul a.2 b.1))

/-- Complex division (the textbook formula std::complex division
computes up to floating rounding). -/
def cDiv (a b : Frac × Frac) : Frac × Frac :=
  let d := fAdd (fMul b.1 b.1) (fMul b.2 b.2)
  (fDiv (fAdd (fMul a.1 b.1) (fMul a.2 b.2)) d,
   fDiv (fSub (fMul a.2 b.1) (fMul a.1 b.2)) d)

/-- Stand-in for a complex std transcendental function; see stdSinQ. -/
def stdCZero : Frac × Frac → Frac × Frac := fun _ => (0, 0)

/-- Stand-in for complex std::pow; see stdSinQ. -/
def stdCPow : Frac × Frac → Frac × Frac → Frac × Frac := fun _ _ => (0, 0)

/-- The complex domain (Complexes_t): pairs of fractions, componentwise
equality as operator==, the "(re, im)" rendering of symcpp::to_string,
the Ln::eval check real part > 0, and the imaginary unit (0, 1) for an
unbound variable i. -/
def complexDomain : NumDomain (Frac × Frac) where
  zero := (0, 0)
  one := (1, 0)
  ofReal := fun q => (q, 0)
  add := cAdd
  sub := cSub
  mul := cMul
  div := cDiv
  powFn := stdCPow
  sinFn := stdCZero
  cosFn := stdCZero
  logFn := stdCZero
  expFn := stdCZero
  beq := fun a b => fEq a.1 b.1 && fEq a.2 b.2
  valToString := fun v =>
    "(" ++ String.mk (render6 v.1) ++ ", " ++ String.mk (render6 v.2) ++ ")"
  lnOk := fun v => fPos v.1
  imagUnit := (0, 1)
  beq_zero_zero := by decide
  beq_one_one := by decide
  beq_zero_one := by decide

/-- Transcribed from the specification text (section 4.2, Power row): the
generalized power rule l^r * (diff(r)*ln(l) + r*diff(l)/l), built through
the section 4.1 simplifying operators, with the division sequenced after
the two recursive differentiations as in the source expression. -/
def specPowerRule (D : NumDomain α) (x : String) (l r : Expr α) :
    Except SymError (Expr α) := do
  let dr ← diffE D x r
  let dl ← diffE D x l
  let q ← divE D (mulE D r dl) l
  .ok (mulE D (powE D l r) (addE D (mulE D dr (lnE D l)) q))

/-- Transcribed from the specification text (section 4.2, Power row): the
constant-exponent-only formula r * l^(r-1) * diff(l) that the
specification warns must not be the general rule. -/
def naivePowerRule (D : NumDomain α) (x : String) (l r : Expr α) :
    Except SymError (Expr α) := do
  let dl ← diffE D x l
  .ok (mulE D (mulE D r (powE D l (subE D r (.value D.one)))) dl)

/-! ## Helper lemmas -/

/-- The dynamic cast view: a node casts to Value exactly when it is one. -/
theorem val?_eq_some_iff {e : Expr α} {v : α} : e.val? = some v ↔ e = .value v := by
  cases e <;> simp [Expr.val?]

/-- Bind on a successful Except value. -/
theorem okBind {ε β γ : Type} (a : β) (f : β → Except ε γ) :
    ((Except.ok a : Except ε β) >>= f) = f a := rfl

/-- Bind on a failed Except value. -/
theorem errBind {ε β γ : Type} (e : ε) (f : β → Except ε γ) :
    ((Except.error e : Except ε β) >>= f) = .error e := rfl

/-- The division operator fails (and it fails only with DivisionByZero)
exactly when the divisor is a literal comparing equal to the domain's
zero. -/
theorem divE_error_iff (D : NumDomain α) (l r : Expr α) :
    divE D l r = .error .divisionByZero ↔
      ∃ v, r = .value v ∧ D.beq v D.zero = true := by
  cases l <;> cases r <;>
    simp only [divE, Expr.val?] <;>
    (try split_ifs) <;>
    simp_all

/-! ## Claims -/

/-- C1: for every Power node with base l and exponent r and every
differentiation-variable name, diff builds, through the simplifying
operators, the generalized rule l^r * (diff(r)*ln(l) + r*diff(l)/l), and
this differs (witnessed at l = r = x) from the constant-exponent-only
formula r*l^(r-1)*diff(l). -/
theorem power_diff_is_generalized_rule :
    (∀ (β : Type) (D : NumDomain β) (x : String) (l r : Expr β),
      diffE D x (.power l r) = specPowerRule D x l r) ∧
    diffE realDomain "x" (.power (.var "x") (.var "x")) ≠
      naivePowerRule realDomain "x" (.var "x") (.var "x") := by
  constructor
  · intro β D x l r
    rfl
  · decide

/-- C2 counterexample: the pow operator has no case for a literal-zero
exponent, so x^0 allocates a Power node instead of returning the
literal 1. -/
theorem pow_zero_exponent_not_simplified :
    powE realDomain (.var "x") (.value 0) = .power (.var "x") (.value 0) ∧
    powE realDomain (.var "x") (.value 0) ≠ .value 1 := by decide

/-- C2 amended: for every non-literal e the operators return e + 0 = e,
e * 1 = e, e * 0 = the literal zero, and e ^ 1 = e structurally, but
e ^ 0 allocates a Power node (there is no zero-exponent case in pow). -/
theorem identity_laws_structural (D : NumDomain α) (e : Expr α)
    (h : e.val? = none) :
    addE D e (.value D.zero) = e ∧
    mulE D e (.value D.one) = e ∧
    mulE D e (.value D.zero) = .value D.zero ∧
    powE D e (.value D.one) = e ∧
    powE D e (.value D.zero) = .power e (.value D.zero) := by
  refine ⟨?_, ?_, ?_, ?_, ?_⟩ <;>
    cases e <;>
    first
    | (simp [addE, mulE, powE, Expr.val?, D.beq_zero_zero, D.beq_one_one,
        D.beq_zero_one]; done)
    | (exfalso; simp [Expr.val?] at h)

/-- Witness for the amended identity laws at the variable x over the real
domain. -/
theorem identity_laws_structural_witness :
    (Expr.val? (.var "x") = (none : Option Frac)) ∧
    (addE realDomain (.var "x") (.value realDomain.zero) = .var "x" ∧
     mulE realDomain (.var "x") (.value realDomain.one) = .var "x" ∧
     mulE realDomain (.var "x") (.value realDomain.zero) = .value realDomain.zero ∧
     powE realDomain (.var "x") (.value realDomain.one) = .var "x" ∧
     powE realDomain (.var "x") (.value realDomain.zero) =
       .power (.var "x") (.value realDomain.zero)) :=
  ⟨rfl, identity_laws_structural realDomain (.var "x") rfl⟩

/-- C3: constructing a division whose divisor is a literal comparing
equal to the domain's zero fails with DivisionByZero, and only then; a
divisor that merely folds to such a literal is covered because folding
happens before the division operator sees it (concrete conjunct); and
evaluating a Divide node whose children evaluate cleanly fails with
DivisionByZero exactly when the divisor's value compares equal to zero,
else yields the domain quotient. -/
theorem division_by_zero_checks (D : NumDomain α) (l r : Expr α)
    (binds : List (String × α)) (lv rv : α)
    (hl : evalE D binds l = .ok lv) (hr : evalE D binds r = .ok rv) :
    (divE D l r = .error .divisionByZero ↔
      ∃ v, r = .value v ∧ D.beq v D.zero = true) ∧
    (evalE D binds (.divide l r) = .error .divisionByZero ↔
      D.beq rv D.zero = true) ∧
    (D.beq rv D.zero = false →
      evalE D binds (.divide l r) = .ok (D.div lv rv)) ∧
    divE realDomain (.var "x") (subE realDomain (.value 1) (.value 1)) =
      .error .divisionByZero := by
  refine ⟨divE_error_iff D l r, ?_, ?_, by decide⟩
  · simp only [evalE, hr, okBind]
    rcases hb : D.beq rv D.zero <;> simp [hb, hl, okBind]
  · intro hb
    simp [evalE, hr, hl, hb, okBind]

/-- Witness for the division checks at 4 / 2 over the real domain. -/
theorem division_by_zero_checks_witness :
    (evalE realDomain [] (.value 4) = .ok 4) ∧
    (evalE realDomain [] (.value 2) = .ok 2) ∧
    ((divE realDomain (.value 4) (.value 2) = .error .divisionByZero ↔
       ∃ v, (Expr.value 2 : Expr Frac) = .value v ∧ realDomain.beq v realDomain.zero = true) ∧
     (evalE realDomain [] (.divide (.value 4) (.value 2)) = .error .divisionByZero ↔
       realDomain.beq 2 realDomain.zero = true) ∧
     (realDomain.beq 2 realDomain.zero = false →
       evalE realDomain [] (.divide (.value 4) (.value 2)) = .ok (realDomain.div 4 2)) ∧
     divE realDomain (.var "x") (subE realDomain (.value 1) (.value 1)) =
       .error .divisionByZero) :=
  ⟨rfl, rfl, division_by_zero_checks realDomain (.value 4) (.value 2) [] 4 2 rfl rfl⟩

/-- C4 counterexample: applying ln to the non-positive real literal -1
does not fail at construction; Expression::ln folds any literal through
std::log (a total function) into a fresh literal, and allocates no Ln
node. -/
theorem ln_negative_literal_folds :
    lnE realDomain (.value (-1)) = .value (stdLogQ (-1)) ∧
    lnE realDomain (.value (-1)) ≠ .lnN (.value (-1)) := by decide

/-- C4 amended: ln applied to any literal folds at construction to a
literal holding the domain's log of the value, with no error and no Ln
node, whatever the sign; ln of a non-literal allocates an Ln node; the
DomainError check lives in Ln::eval alone, which fails exactly when the
evaluated argument flunks the domain check (positive value in the real
domain, positive real part in the complex domain). -/
theorem ln_folds_at_construction_checks_at_eval :
    (∀ (β : Type) (D : NumDomain β) (v : β), lnE D (.value v) = .value (D.logFn v)) ∧
    (∀ (β : Type) (D : NumDomain β) (e : Expr β), e.val? = none → lnE D e = .lnN e) ∧
    (∀ (β : Type) (D : NumDomain β) (binds : List (String × β)) (e : Expr β) (v : β),
      evalE D binds e = .ok v →
      evalE D binds (.lnN e) =
        if D.lnOk v then .ok (D.logFn v) else .error .domainError) ∧
    (∀ v : Frac, realDomain.lnOk v = fPos v) ∧
    (∀ v : Frac × Frac, complexDomain.lnOk v = fPos v.1) := by
  refine ⟨fun β D v => rfl, ?_, ?_, fun v => rfl, fun v => rfl⟩
  · intro β D e h
    cases e <;> first
      | rfl
      | (exfalso; simp [Expr.val?] at h)
  · intro β D binds e v h
    simp [evalE, h, okBind]

/-- Witness for the amended ln behaviour: evaluating ln at the literal
-2 over the real domain flunks the check and raises the domain error. -/
theorem ln_folds_at_construction_checks_at_eval_witness :
    (evalE realDomain [] (.value (-2)) = .ok (-2)) ∧
    evalE realDomain [] (.lnN (.value (-2))) =
      (if realDomain.lnOk (-2) then .ok (realDomain.logFn (-2))
       else .error .domainError) :=
  ⟨rfl,
    ln_folds_at_construction_checks_at_eval.2.2.1 Frac realDomain [] (.value (-2)) (-2) rfl⟩

/-- C5 counterexample: in the real domain an unbound variable named i
does not fail with UnboundVariable; Variable::eval returns
Domain(Complexes_t(0, 1)), and the explicit conversion to long double
yields the real part, 0. -/
theorem real_unbound_i_evaluates_to_zero :
    evalE realDomain [] (.var "i") = .ok 0 ∧
    evalE realDomain [] (.var "i") ≠ .error .unboundVariable := by decide

/-- C5 amended: Variable::eval returns the bound value when the name is
bound; an unbound i resolves, in every domain, to the conversion of
Complexes_t(0, 1) into the domain — the imaginary unit (0, 1) in the
complex domain, but the real part 0 in the real domain — and any other
unbound name fails with UnboundVariable. -/
theorem variable_eval_resolution (D : NumDomain α)
    (binds : List (String × α)) (name : String) :
    (∀ v, lookupBind binds name = some v →
      evalE D binds (.var name) = .ok v) ∧
    (lookupBind binds name = none → name = "i" →
      evalE D binds (.var name) = .ok D.imagUnit) ∧
    (lookupBind binds name = none → name ≠ "i" →
      evalE D binds (.var name) = .error .unboundVariable) ∧
    complexDomain.imagUnit = ((0 : Frac), (1 : Frac)) ∧
    realDomain.imagUnit = (0 : Frac) := by
  refine ⟨?_, ?_, ?_, rfl, rfl⟩
  · intro v h
    simp [evalE, h]
  · intro h hi
    subst hi
    simp [evalE, h]
  · intro h hi
    simp [evalE, h, hi]

/-- Witness for variable evaluation: the bound name x over the real
domain returns its binding. -/
theorem variable_eval_resolution_witness :
    (lookupBind [("x", (3 : Frac))] "x" = some 3) ∧
    evalE realDomain [("x", 3)] (.var "x") = .ok 3 :=
  ⟨rfl, (variable_eval_resolution realDomain [("x", 3)] "x").1 3 rfl⟩

/-- C10: diff on an empty handle never fails and returns a non-empty
handle holding a literal zero of the domain; that result evaluates to
the domain's zero under any bindings and renders through the domain's
literal rendering — concretely 0.000000 in the real domain and
(0.000000, 0.000000) in the complex domain, not the empty-handle
sentinel null. -/
theorem empty_handle_diff_is_literal_zero :
    (∀ (β : Type) (D : NumDomain β) (x : String),
      diffH D x none = .ok (some (.value D.zero))) ∧
    (∀ (β : Type) (D : NumDomain β) (binds : List (String × β)),
      evalH D binds (some (.value D.zero)) = .ok D.zero) ∧
    (∀ (β : Type) (D : NumDomain β),
      toStringH D (some (.value D.zero)) = D.valToString D.zero) ∧
    toStringH realDomain (some (.value realDomain.zero)) = "0.000000" ∧
    toStringH complexDomain (some (.value complexDomain.zero)) =
      "(0.000000, 0.000000)" ∧
    toStringH realDomain none = "null" ∧
    toStringH realDomain (some (.value realDomain.zero)) ≠ "null" := by
  exact ⟨fun β D x => rfl, fun β D binds => rfl, fun β D => rfl,
    by decide, by decide, rfl, by decide⟩

/-- C6 counterexample: a numeric literal encountered while the previous
token already produced an operand is NOT preceded by a synthesized
times; the digit branch of parse_expression never consults
expect_operand, so the input x2 leaves both operands on the value stack
with no operator and the parser returns the top one, the literal 2. -/
theorem numeric_literal_no_implicit_star :
    parse_expression realDomain "x2" = .ok (.value 2) ∧
    parse_expression realDomain "x2" ≠
      .ok (mulE realDomain (.var "x") (.value 2)) := by decide

/-- C6 amended: in operand-already-produced state (expect_operand
false), a variable token, a reserved-function call and an opening
parenthesis each push a synthesized times onto the operator stack, but a
numeric literal pushes its value with the operator stack untouched; the
concrete conjuncts show 2x, (x)(y) and 2sin(x) parsing as products with
no explicit sign. -/
theorem implicit_multiplication_rules :
    (∀ (β : Type) (D : NumDomain β) (fuel : Nat) (c : Char) (rest : List Char)
        (vals : List (Expr β)) (ops : List Char),
      c.isWhitespace = false → numChar c = false → c.isAlpha = true →
      isReservedFn (String.mk ((c :: rest).takeWhile Char.isAlpha)) = false →
      parseLoop D (fuel + 1) (c :: rest) vals ops false =
        parseLoop D fuel ((c :: rest).dropWhile Char.isAlpha)
          (.var (String.mk ((c :: rest).takeWhile Char.isAlpha)) :: vals)
          ('*' :: ops) false) ∧
    (∀ (β : Type) (D : NumDomain β) (fuel : Nat) (c : Char) (rest r1 : List Char)
        (vals : List (Expr β)) (ops : List Char),
      c.isWhitespace = false → numChar c = false → c.isAlpha = true →
      isReservedFn (String.mk ((c :: rest).takeWhile Char.isAlpha)) = true →
      (c :: rest).dropWhile Char.isAlpha = '(' :: r1 →
      parseLoop D (fuel + 1) (c :: rest) vals ops false =
        (match parseLoop D fuel (scanArg 1 r1).1 [] [] true with
         | .error e => .error e
         | .ok argE =>
             parseLoop D fuel (scanArg 1 r1).2
               (applyFn D (String.mk ((c :: rest).takeWhile Char.isAlpha)) argE :: vals)
               ('*' :: ops) false)) ∧
    (∀ (β : Type) (D : NumDomain β) (fuel : Nat) (rest : List Char)
        (vals : List (Expr β)) (ops : List Char),
      parseLoop D (fuel + 1) ('(' :: rest) vals ops false =
        parseLoop D fuel rest vals ('(' :: '*' :: ops) true) ∧
    (∀ (β : Type) (D : NumDomain β) (fuel : Nat) (c : Char) (rest : List Char)
        (vals : List (Expr β)) (ops : List Char),
      c.isWhitespace = false → numChar c = true →
      parseLoop D (fuel + 1) (c :: rest) vals ops false =
        parseLoop D fuel ((c :: rest).dropWhile numChar)
          (.value (D.ofReal (stoldModel ((c :: rest).takeWhile numChar))) :: vals)
          ops false) ∧
    parse_expression realDomain "2x" = .ok (.mul (.value 2) (.var "x")) ∧
    parse_expression realDomain "(x)(y)" = .ok (.mul (.var "x") (.var "y")) ∧
    parse_expression realDomain "2sin(x)" =
      .ok (.mul (.value 2) (.sinN (.var "x"))) := by
  refine ⟨?_, ?_, ?_, ?_, by decide, by decide, by decide⟩
  · intro β D fuel c rest vals ops hw hn ha hres
    simp [ha] at hres
    simp [parseLoop, hw, hn, ha, hres]
  · intro β D fuel c rest r1 vals ops hw hn ha hres hdrop
    simp [ha] at hres hdrop
    simp [parseLoop, hw, hn, ha, hres, hdrop]
  · intro β D fuel rest vals ops
    simp [parseLoop, numChar]
  · intro β D fuel c rest vals ops hw hn
    simp [parseLoop, hw, hn]

/-- Witness for the implicit-multiplication rules: one step on the
variable x in operand-already-produced state pushes the synthesized
times. -/
theorem implicit_multiplication_rules_witness :
    (Char.isWhitespace 'x' = false ∧ numChar 'x' = false ∧
      Char.isAlpha 'x' = true ∧
      isReservedFn (String.mk (('x' :: []).takeWhile Char.isAlpha)) = false) ∧
    parseLoop realDomain 3 ('x' :: []) [] ('+' :: []) false =
      parseLoop realDomain 2 (('x' :: []).dropWhile Char.isAlpha)
        (.var (String.mk (('x' :: []).takeWhile Char.isAlpha)) :: [])
        ('*' :: '+' :: []) false :=
  ⟨⟨by decide, by decide, by decide, by decide⟩,
    implicit_multiplication_rules.1 Frac realDomain 2 'x' [] [] ('+' :: [])
      (by decide) (by decide) (by decide) (by decide)⟩

/-- C7: the parser's precedences are 1 for plus and minus, 2 for times
and divide, 3 for the caret, and every operator, the caret included,
reduces left-associatively: x ^ a ^ b parses to (x ^ a) ^ b, with the
other shapes checking the precedence tiers. -/
theorem operators_left_associative_with_precedence :
    precOf '+' = 1 ∧ precOf '-' = 1 ∧ precOf '*' = 2 ∧ precOf '/' = 2 ∧
    precOf '^' = 3 ∧
    parse_expression realDomain "x ^ a ^ b" =
      .ok (.power (.power (.var "x") (.var "a")) (.var "b")) ∧
    parse_expression realDomain "x - a - b" =
      .ok (.sub (.sub (.var "x") (.var "a")) (.var "b")) ∧
    parse_expression realDomain "x + a * b" =
      .ok (.add (.var "x") (.mul (.var "a") (.var "b"))) ∧
    parse_expression realDomain "x * a ^ b" =
      .ok (.mul (.var "x") (.power (.var "a") (.var "b"))) := by decide

/-- C9: differentiating the parsed x * sin(x) with respect to x and
rendering the result yields exactly (sin(x) + (x * cos(x))): the product
rule builds diff(x)*sin(x) + x*diff(sin(x)) and the eager simplification
collapses the factors 1*sin(x) and cos(x)*1. -/
theorem diff_x_sin_x_renders :
    (parse_expression realDomain "x * sin(x)").bind
      (fun e => (diffE realDomain "x" e).map (toStringE realDomain)) =
    .ok "(sin(x) + (x * cos(x)))" := by decide

/-! ## Round-trip machinery for the literal rendering (claim C8) -/

/-- The decimal digit characters: digit class, numeric value, and the
character classes the parser branches on. -/
theorem digitCharFacts :
    ∀ d : Fin 10,
      (Nat.digitChar d.1).isDigit = true ∧ digitVal (Nat.digitChar d.1) = d.1 ∧
      (Nat.digitChar d.1).isWhitespace = false ∧ Nat.digitChar d.1 ≠ '-' ∧
      Nat.digitChar d.1 ≠ '.' := by decide

/-- Every entry of natDigitsRev is a digit. -/
theorem natDigitsRev_mem_lt :
    ∀ (fuel n d : Nat), d ∈ natDigitsRev fuel n → d < 10 := by
  intro fuel
  induction fuel with
  | zero => intro n d h; simp [natDigitsRev] at h
  | succ f ih =>
      intro n d h
      cases n with
      | zero => simp [natDigitsRev] at h
      | succ m =>
          simp only [natDigitsRev, List.mem_cons] at h
          rcases h with h | h
          · omega
          · exact ih _ _ h

/-- The digit value of the zero character. -/
theorem digitVal_zero_char : digitVal '0' = 0 := rfl

/-- Reading back the digits rendered by natDigitsRev recovers the
number. -/
theorem parseNat_natDigitsRev :
    ∀ (fuel n : Nat), n ≤ fuel →
      parseNatChars ((natDigitsRev fuel n).reverse.map Nat.digitChar) = n := by
  intro fuel
  induction fuel with
  | zero =>
      intro n h
      have : n = 0 := Nat.le_zero.mp h
      subst this
      rfl
  | succ f ih =>
      intro n h
      cases n with
      | zero => rfl
      | succ m =>
          have hdivle : (m + 1) / 10 ≤ f := by
            have := Nat.div_lt_self (Nat.succ_pos m) (by norm_num : 1 < 10)
            omega
          have ihv := ih ((m + 1) / 10) hdivle
          have hmod : (m + 1) % 10 < 10 := Nat.mod_lt _ (by norm_num)
          have hdv : digitVal (Nat.digitChar ((m + 1) % 10)) = (m + 1) % 10 :=
            (digitCharFacts ⟨(m + 1) % 10, hmod⟩).2.1
          simp only [natDigitsRev, List.reverse_cons, List.map_append,
            List.map_cons, List.map_nil]
          simp only [parseNatChars] at ihv ⊢
          rw [List.foldl_append]
          simp only [List.foldl_cons, List.foldl_nil]
          rw [ihv, hdv]
          omega

/-- Reading back the decimal rendering of a natural number recovers
it. -/
theorem parseNat_natChars (n : Nat) : parseNatChars (natChars n) = n := by
  unfold natChars
  split
  · simp_all [parseNatChars, List.foldl_cons, List.foldl_nil, digitVal_zero_char]
  · exact parseNat_natDigitsRev n n le_rfl

/-- Leading zero characters do not change the number read back. -/
theorem parseNat_replicate_zero (k : Nat) (cs : List Char) :
    parseNatChars (List.replicate k '0' ++ cs) = parseNatChars cs := by
  induction k with
  | zero => rfl
  | succ j ih =>
      simp only [List.replicate_succ, List.cons_append, parseNatChars,
        List.foldl_cons, digitVal_zero_char] at ih ⊢
      simpa using ih

/-- Reading back the zero-padded six fraction digits recovers the
number. -/
theorem parseNat_pad6 (n : Nat) : parseNatChars (pad6 n) = n := by
  unfold pad6
  rw [parseNat_replicate_zero]
  exact parseNat_natChars n

/-- Every character of the decimal rendering of a natural number is a
digit and none of the special characters the parser branches on. -/
theorem natChars_facts (n : Nat) :
    ∀ c ∈ natChars n,
      c.isDigit = true ∧ c.isWhitespace = false ∧ c ≠ '-' ∧ c ≠ '.' := by
  intro c hc
  unfold natChars at hc
  split at hc
  · simp only [List.mem_singleton] at hc
    subst hc
    refine ⟨by decide, by decide, by decide, by decide⟩
  · simp only [List.mem_map, List.mem_reverse] at hc
    obtain ⟨d, hd, rfl⟩ := hc
    have hlt : d < 10 := natDigitsRev_mem_lt n n d hd
    have h := digitCharFacts ⟨d, hlt⟩
    exact ⟨h.1, h.2.2.1, h.2.2.2.1, h.2.2.2.2⟩

/-- Every character of the padded fraction digits is a digit and none
of the special characters. -/
theorem pad6_facts (n : Nat) :
    ∀ c ∈ pad6 n,
      c.isDigit = true ∧ c.isWhitespace = false ∧ c ≠ '-' ∧ c ≠ '.' := by
  intro c hc
  unfold pad6 at hc
  rcases List.mem_append.mp hc with h | h
  · have := List.eq_of_mem_replicate h
    subst this
    refine ⟨by decide, by decide, by decide, by decide⟩
  · exact natChars_facts n c h

/-- A takeWhile over characters that all satisfy the predicate is the
whole list, and the matching dropWhile is empty. -/
theorem takeWhile_all {p : Char → Bool} :
    ∀ {cs : List Char}, (∀ c ∈ cs, p c = true) →
      cs.takeWhile p = cs ∧ cs.dropWhile p = [] := by
  intro cs
  induction cs with
  | nil => intro h; exact ⟨rfl, rfl⟩
  | cons c rest ih =>
      intro h
      have hc : p c = true := h c (List.mem_cons_self c rest)
      have hrest := ih (fun d hd => h d (List.mem_cons_of_mem c hd))
      simp [List.takeWhile_cons, List.dropWhile_cons, hc, hrest.1, hrest.2]

/-- A takeWhile over a list whose prefix satisfies the predicate and
whose next character fails it splits exactly at that character. -/
theorem takeWhile_split {p : Char → Bool} (b : Char) (hb : p b = false) :
    ∀ (A B : List Char), (∀ c ∈ A, p c = true) →
      (A ++ b :: B).takeWhile p = A ∧ (A ++ b :: B).dropWhile p = b :: B := by
  intro A
  induction A with
  | nil => intro B hA; simp [List.takeWhile_cons, List.dropWhile_cons, hb]
  | cons a rest ih =>
      intro B hA
      have ha : p a = true := hA a (List.mem_cons_self a rest)
      have hrest := ih B (fun d hd => hA d (List.mem_cons_of_mem a hd))
      simp [List.takeWhile_cons, List.dropWhile_cons, ha, hrest.1, hrest.2]

/-- The digit list of a number below 10^k has at most k entries. -/
theorem natDigitsRev_length :
    ∀ (fuel n k : Nat), n < 10 ^ k → (natDigitsRev fuel n).length ≤ k := by
  intro fuel
  induction fuel with
  | zero => intro n k h; simp [natDigitsRev]
  | succ f ih =>
      intro n k h
      cases n with
      | zero => simp [natDigitsRev]
      | succ m =>
          cases k with
          | zero => simp at h
          | succ j =>
              have hdiv : (m + 1) / 10 < 10 ^ j := by
                rw [Nat.div_lt_iff_lt_mul (by norm_num : 0 < 10)]
                calc m + 1 < 10 ^ (j + 1) := h
                  _ = 10 ^ j * 10 := by rw [pow_succ]
              simpa [natDigitsRev] using ih ((m + 1) / 10) j hdiv

/-- The decimal rendering of a number below 10^k has at most k
characters (k positive). -/
theorem natChars_length_le (n k : Nat) (hk : 0 < k) (h : n < 10 ^ k) :
    (natChars n).length ≤ k := by
  unfold natChars
  split
  · simpa using hk
  · simpa using natDigitsRev_length n n k h

/-- The padded fraction digits of a number below 10^6 are exactly six
characters. -/
theorem pad6_length (F : Nat) (hF : F < 1000000) : (pad6 F).length = 6 := by
  have h : (natChars F).length ≤ 6 :=
    natChars_length_le F 6 (by norm_num) (by norm_num; omega)
  simp only [pad6, List.length_append, List.length_replicate]
  omega

/-- Reading the rendered digits-dot-digits token back through the stold
model yields the scaled fraction. -/
theorem stold_render (I F : Nat) (hF : F < 1000000) :
    stoldModel (natChars I ++ '.' :: pad6 F) =
      ⟨(I : Int) * 1000000 + (F : Int), 1000000⟩ := by
  have hdotP : (fun c => decide (c ≠ '.')) '.' = false := by decide
  have hA : ∀ c ∈ natChars I, (fun c => decide (c ≠ '.')) c = true := by
    intro c hc
    simpa using (natChars_facts I c hc).2.2.2
  have hsplit := takeWhile_split '.' hdotP (natChars I) (pad6 F) hA
  have hfrac : ∀ c ∈ pad6 F, Char.isDigit c = true := by
    intro c hc
    exact (pad6_facts F c hc).1
  have hfr := takeWhile_all (p := Char.isDigit) hfrac
  unfold stoldModel
  rw [hsplit.1, hsplit.2]
  simp only [List.drop_succ_cons, List.drop_zero]
  rw [hfr.1]
  rw [parseNat_natChars, parseNat_pad6, pad6_length F hF]
  norm_num

/-- The six-decimal rendering of a non-negative fraction n / 10^6. -/
theorem render6_nonneg (n : Nat) :
    render6 ⟨(n : Int), 1000000⟩ =
      natChars (n / 1000000) ++ '.' :: pad6 (n % 1000000) := by
  unfold render6
  have hsign : ¬((n : Int) * 1000000 < 0) := by
    have : (0 : Int) ≤ (n : Int) := Int.ofNat_nonneg n
    nlinarith
  have hnn : ((n : Int)).natAbs = n := Int.natAbs_ofNat n
  have hdd : ((1000000 : Int)).natAbs = 1000000 := rfl
  have hm : (2 * (n * 1000000) + 1000000) / (2 * 1000000) = n := by
    have h1 : 2 * (n * 1000000) + 1000000 = (2 * n + 1) * 1000000 := by ring
    have h2 : 2 * 1000000 = 1000000 * 2 := by ring
    have h3 : (2 * n + 1) * 1000000 = 1000000 * (2 * n + 1) := by ring
    rw [h1, h2, h3, Nat.mul_div_mul_left _ _ (by norm_num : 0 < 1000000)]
    omega
  simp only [hnn, hdd, hm, if_neg hsign, List.nil_append]

/-- The six-decimal rendering of a negative fraction -n / 10^6. -/
theorem render6_neg (n : Nat) (hn : 0 < n) :
    render6 ⟨-(n : Int), 1000000⟩ =
      '-' :: (natChars (n / 1000000) ++ '.' :: pad6 (n % 1000000)) := by
  unfold render6
  have hsign : -(n : Int) * 1000000 < 0 := by
    have : (0 : Int) < (n : Int) := by exact_mod_cast hn
    nlinarith
  have hnn : (-(n : Int)).natAbs = n := by
    rw [Int.natAbs_neg, Int.natAbs_ofNat]
  have hdd : ((1000000 : Int)).natAbs = 1000000 := rfl
  have hm : (2 * (n * 1000000) + 1000000) / (2 * 1000000) = n := by
    have h1 : 2 * (n * 1000000) + 1000000 = (2 * n + 1) * 1000000 := by ring
    have h2 : 2 * 1000000 = 1000000 * 2 := by ring
    have h3 : (2 * n + 1) * 1000000 = 1000000 * (2 * n + 1) := by ring
    rw [h1, h2, h3, Nat.mul_div_mul_left _ _ (by norm_num : 0 < 1000000)]
    omega
  simp only [hnn, hdd, hm, if_pos hsign, List.cons_append, List.nil_append]

/-- One parser step on a non-empty token of digit and dot characters:
the whole remaining input is consumed as one numeric literal and pushed
as a folded Value. -/
theorem parseLoop_number (D : NumDomain α) (f : Nat) (cs : List Char)
    (vals : List (Expr α)) (ops : List Char) (eo : Bool)
    (hne : cs ≠ [])
    (hall : ∀ ch ∈ cs,
      numChar ch = true ∧ ch.isWhitespace = false ∧ ch ≠ '-') :
    parseLoop D (f + 1) cs vals ops eo =
      parseLoop D f [] (.value (D.ofReal (stoldModel cs)) :: vals) ops false := by
  match cs, hne with
  | c :: rest, _ =>
    have hc := hall c (List.mem_cons_self c rest)
    have hw : c.isWhitespace = false := hc.2.1
    have hminus : (c = '-') = False := by
      simp only [eq_iff_iff, iff_false]
      exact hc.2.2
    have hnum : numChar c = true := hc.1
    have htw : (c :: rest).takeWhile numChar = c :: rest ∧
        (c :: rest).dropWhile numChar = [] := by
      refine takeWhile_all ?_
      intro d hd
      exact (hall d hd).1
    simp [parseLoop, hw, hminus, hnum, htw.1, htw.2]

/-- All characters of the rendered digits-dot-digits token are numeric
token characters and none of the special characters. -/
theorem renderChars_facts (I F : Nat) :
    ∀ ch ∈ natChars I ++ '.' :: pad6 F,
      numChar ch = true ∧ ch.isWhitespace = false ∧ ch ≠ '-' := by
  intro ch hch
  rcases List.mem_append.mp hch with h | h
  · have hf := natChars_facts I ch h
    exact ⟨by simp [numChar, hf.1], hf.2.1, hf.2.2.1⟩
  · rcases List.mem_cons.mp h with rfl | h
    · exact ⟨by decide, by decide, by decide⟩
    · have hf := pad6_facts F ch h
      exact ⟨by simp [numChar, hf.1], hf.2.1, hf.2.2.1⟩

/-- The ofReal injection of the real domain is the identity. -/
theorem realDomain_ofReal (q : Frac) : realDomain.ofReal q = q := rfl

/-- Numerator of the literal -1 fraction. -/
theorem frac_neg_one_num : (-1 : Frac).num = -1 := rfl

/-- Denominator of the literal -1 fraction. -/
theorem frac_neg_one_den : (-1 : Frac).den = 1 := rfl

/-- Parsing and evaluating the rendered non-negative token yields the
scaled fraction back. -/
theorem round_trip_pos (n : Nat) :
    (parse_expression realDomain
        (String.mk (natChars (n / 1000000) ++ '.' :: pad6 (n % 1000000)))).bind
      (evalE realDomain []) = .ok ⟨(n : Int), 1000000⟩ := by
  have hF : n % 1000000 < 1000000 := Nat.mod_lt _ (by norm_num)
  have hne : natChars (n / 1000000) ++ '.' :: pad6 (n % 1000000) ≠ [] := by
    simp
  have hfin : ∀ (f : Nat) (w : Frac),
      (parseLoop realDomain f [] (Expr.value w :: []) [] false).bind
        (evalE realDomain []) = .ok w := by
    intro f w
    cases f <;> rfl
  unfold parse_expression
  rw [show (String.mk (natChars (n / 1000000) ++ '.' :: pad6 (n % 1000000))).data
      = natChars (n / 1000000) ++ '.' :: pad6 (n % 1000000) from rfl]
  rw [parseLoop_number realDomain _ _ [] [] true hne
    (renderChars_facts (n / 1000000) (n % 1000000))]
  rw [stold_render _ _ hF]
  rw [hfin]
  rw [realDomain_ofReal]
  simp only [Except.ok.injEq, Frac.mk.injEq]
  refine ⟨by omega, trivial⟩

/-- Parsing and evaluating the rendered negative token yields the
negated scaled fraction back, through the unary-minus rewriting into a
product with -1 and the constant fold of that product. -/
theorem round_trip_neg (n : Nat) :
    (parse_expression realDomain
        (String.mk ('-' :: (natChars (n / 1000000) ++ '.' :: pad6 (n % 1000000))))).bind
      (evalE realDomain []) = .ok ⟨-(n : Int), 1000000⟩ := by
  have hF : n % 1000000 < 1000000 := Nat.mod_lt _ (by norm_num)
  have hne : natChars (n / 1000000) ++ '.' :: pad6 (n % 1000000) ≠ [] := by
    simp
  have hfin : ∀ (f : Nat) (w : Frac),
      (parseLoop realDomain f []
          (Expr.value w :: Expr.value (realDomain.ofReal (-1)) :: []) ('*' :: []) false).bind
        (evalE realDomain []) = .ok (fMul (-1) w) := by
    intro f w
    cases f <;> rfl
  unfold parse_expression
  rw [show (String.mk ('-' :: (natChars (n / 1000000) ++ '.' :: pad6 (n % 1000000)))).data
      = '-' :: (natChars (n / 1000000) ++ '.' :: pad6 (n % 1000000)) from rfl]
  simp only [List.length_cons]
  rw [show parseLoop realDomain
        ((natChars (n / 1000000) ++ '.' :: pad6 (n % 1000000)).length + 1 + 1)
        ('-' :: (natChars (n / 1000000) ++ '.' :: pad6 (n % 1000000))) [] [] true
      = parseLoop realDomain
        ((natChars (n / 1000000) ++ '.' :: pad6 (n % 1000000)).length + 1)
        (natChars (n / 1000000) ++ '.' :: pad6 (n % 1000000))
        (Expr.value (realDomain.ofReal (-1)) :: []) ('*' :: []) true by
    simp [parseLoop]]
  rw [parseLoop_number realDomain _ _ _ _ true hne
    (renderChars_facts (n / 1000000) (n % 1000000))]
  rw [stold_render _ _ hF]
  rw [hfin]
  rw [realDomain_ofReal]
  simp only [fMul, Except.ok.injEq, Frac.mk.injEq, frac_neg_one_num,
    frac_neg_one_den]
  constructor
  · push_cast
    omega
  · norm_num

/-- C8 counterexample: the literal round trip parse(str(a)).eval({}) == a
fails.  In the complex domain, a = 1 + 2i renders as
"(1.000000, 2.000000)", whose re-parse skips the comma, treats the
parenthesized group as two stacked operands, and returns the last one:
the evaluation yields 2, not 1 + 2i.  In the real domain, a = 1/3
renders as the six-decimal "0.333333", which re-parses and evaluates to
333333/1000000, numerically different from 1/3 under the domain
equality. -/
theorem literal_round_trip_fails :
    complexDomain.valToString (1, 2) = "(1.000000, 2.000000)" ∧
    (parse_expression complexDomain (complexDomain.valToString (1, 2))).bind
        (evalE complexDomain []) = .ok (⟨2000000, 1000000⟩, ⟨0, 1⟩) ∧
    complexDomain.beq (⟨2000000, 1000000⟩, ⟨0, 1⟩) (1, 2) = false ∧
    realDomain.valToString ⟨1, 3⟩ = "0.333333" ∧
    (parse_expression realDomain (realDomain.valToString ⟨1, 3⟩)).bind
        (evalE realDomain []) = .ok ⟨333333, 1000000⟩ ∧
    realDomain.beq ⟨333333, 1000000⟩ ⟨1, 3⟩ = false := by decide

/-- C8 amended: the literal round trip holds in the real domain for
every value carrying at most six fractional decimal digits, that is
every a = n/10^6 and a = -n/10^6: rendering through the six-decimal
Value::to_string, re-parsing and evaluating with empty bindings returns
a exactly (for the negative values, through the unary-minus product with
-1 and its constant fold).  By the counterexample theorem it fails for
other real values and in the complex domain. -/
theorem literal_round_trip_six_decimals (n : Nat) :
    (parse_expression realDomain
        (realDomain.valToString ⟨(n : Int), 1000000⟩)).bind
      (evalE realDomain []) = .ok ⟨(n : Int), 1000000⟩ ∧
    (parse_expression realDomain
        (realDomain.valToString ⟨-(n : Int), 1000000⟩)).bind
      (evalE realDomain []) = .ok ⟨-(n : Int), 1000000⟩ := by
  constructor
  · have h : realDomain.valToString ⟨(n : Int), 1000000⟩
        = String.mk (natChars (n / 1000000) ++ '.' :: pad6 (n % 1000000)) := by
      show String.mk (render6 _) = _
      rw [render6_nonneg]
    rw [h]
    exact round_trip_pos n
  · cases n with
    | zero =>
        simp only [Nat.cast_zero, neg_zero]
        have h : realDomain.valToString ⟨(0 : Int), 1000000⟩
            = String.mk (natChars (0 / 1000000) ++ '.' :: pad6 (0 % 1000000)) := by
          show String.mk (render6 _) = _
          rw [show ((0 : Int)) = (((0 : Nat) : Int)) from rfl, render6_nonneg]
        rw [h]
        exact round_trip_pos 0
    | succ m =>
        have h : realDomain.valToString ⟨-(((m + 1 : Nat)) : Int), 1000000⟩
            = String.mk ('-' :: (natChars ((m + 1) / 1000000) ++ '.' ::
                pad6 ((m + 1) % 1000000))) := by
          show String.mk (render6 _) = _
          rw [render6_neg (m + 1) (Nat.succ_pos m)]
        rw [h]
        exact round_trip_neg (m + 1)

end Symcpp
